import Mathlib

/-!
Verification development for the rewind ingestion pipeline.

This file gives a shallow embedding of the ingestion HTTP endpoints
(`POST /ingest/batch`, `POST /ingest` from the ingest route module) and of
the read-path queries (`getConversation`, `toggleConversationStar` from
`packages/api/src/db/queries.ts`) of the rewind API, and proves/refutes the
frozen claims about them.

Modelling conventions:
- The Neo4j property graph is a `GraphState`: lists of node records plus
  explicit edge lists, in store (creation) order.
- Cypher `MERGE ... ON CREATE SET` is create-if-absent: a node lookup by
  its merge key, appending a fresh node only when the lookup fails.
- A Cypher query whose leading `MATCH` finds no rows does nothing.
- `MERGE` on a null merge key (the driver receives `null` for `$uuid`)
  raises an error; this is the failure mode inside the write transaction.
- `session.executeWrite` is transactional: the endpoint embedding returns
  the original state whenever the transaction body reports an error.
- `datetime()` call values are supplied as an explicit `now : Nat` request
  parameter.
- `JSON.stringify`/`JSON.parse` of a message payload is a bijective
  round-trip on these payloads, so the serialized `messageData` property is
  modelled by the structured payload value itself.
- JavaScript truthiness on strings (`x || null`, `!x`) is explicit: `none`
  and the empty string are falsy.
-/

/-- One content block of an assistant payload (`{type, text, ...}` in the
transcript JSON). Only the `type` and `text` keys steer control flow in the
ingest route (block typing and preview extraction); the remaining keys ride
along inside the serialized block and are not inspected, so they are not
modelled separately. A missing key is `none`. -/
structure Block where
  btype : Option String
  text : Option String
deriving DecidableEq

/-- The `content` field of a message payload: a plain string (user messages)
or an array of blocks. -/
inductive MsgContent where
  | str (s : String)
  | arr (blocks : List Block)
deriving DecidableEq

/-- Token usage as in the Anthropic API `usage` object (shared `Usage` type,
required fields only). -/
structure Usage where
  input_tokens : Nat
  output_tokens : Nat
deriving DecidableEq

/-- The `message` payload of a transcript record (`UserMessage` or
`AssistantMessage` in the shared types). Field presence is modelled with
`Option`: `'model' in message.message` is `model.isSome`, and likewise for
`usage` and `content`. -/
structure MessageBody where
  model : Option String
  usage : Option Usage
  content : Option MsgContent
deriving DecidableEq

/-- A transcript record (`ConversationMessage` in the shared types), as it
arrives in the unvalidated JSON request body: every field that the ingest
route reads. Fields are `Option` because the endpoints validate only the
top-level payload, not individual records, so any field may be absent at
runtime. `mtype` is the record's `type` tag. -/
structure ConversationMessage where
  uuid : Option String
  mtype : String
  timestamp : Option String
  parentUuid : Option String
  isSidechain : Option Bool
  userType : Option String
  cwd : Option String
  sessionId : Option String
  version : Option String
  gitBranch : Option String
  agentId : Option String
  requestId : Option String
  message : MessageBody
deriving DecidableEq

/-- A `Rewind_Project` node with the properties set by
`ensureProjectAndConversation` (`ON CREATE SET p.path, p.name,
p.displayName, p.createdAt`). -/
structure ProjectNode where
  id : String
  path : Option String
  name : String
  displayName : String
  createdAt : Nat
deriving DecidableEq

/-- A `Rewind_Conversation` node: properties set at creation by
`ensureProjectAndConversation`, plus the `starred` flag written only by
`toggleConversationStar` (absent until first toggled). -/
structure ConversationNode where
  sessionId : String
  uuid : Option String
  timestamp : Option String
  createdAt : Nat
  starred : Option Bool
deriving DecidableEq

/-- A `Rewind_Message` node with the properties of `ingestMessage`'s
`ON CREATE SET`. `messageData` holds the serialized original payload. -/
structure MessageNode where
  uuid : String
  mtype : String
  timestamp : Option String
  parentUuid : Option String
  isSidechain : Bool
  userType : Option String
  cwd : Option String
  sessionId : Option String
  version : Option String
  gitBranch : Option String
  agentId : Option String
  requestId : Option String
  model : Option String
  inputTokens : Option Nat
  outputTokens : Option Nat
  messageData : MessageBody
  preview : String
  createdAt : Nat
deriving DecidableEq

/-- A `Rewind_ContentBlock` node keyed by `(messageUuid, index)`, with the
properties of the block `MERGE`'s `ON CREATE SET`. -/
structure ContentBlockNode where
  messageUuid : String
  index : Nat
  btype : String
  data : Block
deriving DecidableEq

/-- The property graph: node lists (in store order) and edge lists.
`projConvEdges` are `HAS_CONVERSATION` edges `(project id, sessionId)`;
`convMsgEdges` are `CONTAINS` edges `(sessionId, message uuid)`;
`msgBlockEdges` are `HAS_BLOCK` edges, keyed like the block they point to
(`(messageUuid, index)`), since a block's unique incoming edge comes from
the message whose uuid is its `messageUuid`. -/
structure GraphState where
  projects : List ProjectNode
  conversations : List ConversationNode
  messages : List MessageNode
  blocks : List ContentBlockNode
  projConvEdges : List (String × String)
  convMsgEdges : List (String × String)
  msgBlockEdges : List (String × Nat)
deriving DecidableEq

/-- The empty graph. -/
def GraphState.empty : GraphState := ⟨[], [], [], [], [], [], []⟩

/-- JavaScript `x || null` on an optional string: the empty string is falsy
and collapses to `null`. -/
def jsOrNull : Option String → Option String
  | some s => if s = "" then none else some s
  | none => none

/-- JavaScript truthiness of an optional string field (`!x` fails the
validation check when `x` is absent or the empty string). -/
def truthy : Option String → Bool
  | some s => s ≠ ""
  | none => false

/-- `block.type || 'unknown'` when storing a content block. -/
def blockTypeOf (b : Block) : String :=
  match b.btype with
  | some s => if s = "" then "unknown" else s
  | none => "unknown"

/-- The text block search used by `getPreview` in the ingest route:
`content.find(b => b.type === 'text')`. -/
def findTextBlock (bs : List Block) : Option Block :=
  bs.find? (fun b => b.btype == some "text")

/-- `textBlock?.text?.slice(0, 200) || ''` applied to the found text block. -/
def previewOfBlocks (bs : List Block) : String :=
  match findTextBlock bs with
  | some b => (b.text.getD "").take 200
  | none => ""

/-- `getPreview` from the ingest route: first 200 characters of the text
content of a user or assistant message, else the empty string. A user
message whose content is neither a string nor an array falls through both
branches and yields the empty string. -/
def getPreview (m : ConversationMessage) : String :=
  if m.mtype = "user" then
    match m.message.content with
    | some (.str s) => s.take 200
    | some (.arr bs) => previewOfBlocks bs
    | none => ""
  else if m.mtype = "assistant" then
    match m.message.content with
    | some (.arr bs) => previewOfBlocks bs
    | _ => ""
  else ""

/-- Does a project node with this id exist (the row set of
`MERGE (p:Rewind_Project {id: $projectId})` is nonempty)? -/
def projMem (st : GraphState) (pid : String) : Bool :=
  st.projects.any (fun p => p.id == pid)

/-- Does a conversation node with this sessionId exist? -/
def convMem (st : GraphState) (cid : String) : Bool :=
  st.conversations.any (fun c => c.sessionId == cid)

/-- Does a message node with this uuid exist? -/
def msgMem (st : GraphState) (u : String) : Bool :=
  st.messages.any (fun m => m.uuid == u)

/-- Does a content block node with this `(messageUuid, index)` key exist? -/
def blockMem (st : GraphState) (u : String) (i : Nat) : Bool :=
  st.blocks.any (fun b => b.messageUuid == u && b.index == i)

/-- The error raised inside the write transaction when `MERGE` receives a
null merge key (`Cannot merge using null property value`). -/
inductive IngestError where
  | nullMergeKey
deriving DecidableEq

/-- The usage object extracted by `ingestMessage`:
`message.type === 'assistant' && 'usage' in message.message ? ... : undefined`. -/
def usageOf (msg : ConversationMessage) : Option Usage :=
  if msg.mtype = "assistant" then msg.message.usage else none

/-- The `Rewind_Message` node that `ingestMessage`'s `ON CREATE SET` builds
for a message whose uuid is `u`. Token counts follow the source's
truthiness check `usage?.input_tokens ? neo4j.int(...) : null`, so a zero
count is stored as null. -/
def messageNodeOf (now : Nat) (u : String) (msg : ConversationMessage) : MessageNode :=
  { uuid := u
    mtype := msg.mtype
    timestamp := msg.timestamp
    parentUuid := msg.parentUuid
    isSidechain := msg.isSidechain.getD false
    userType := jsOrNull msg.userType
    cwd := jsOrNull msg.cwd
    sessionId := msg.sessionId
    version := msg.version
    gitBranch := jsOrNull msg.gitBranch
    agentId := jsOrNull msg.agentId
    requestId := jsOrNull msg.requestId
    model := if msg.mtype = "assistant" then msg.message.model else none
    inputTokens :=
      match usageOf msg with
      | some us => if us.input_tokens ≠ 0 then some us.input_tokens else none
      | none => none
    outputTokens :=
      match usageOf msg with
      | some us => if us.output_tokens ≠ 0 then some us.output_tokens else none
      | none => none
    messageData := msg.message
    preview := getPreview msg
    createdAt := now }

/-- `MERGE (m:Rewind_Message {uuid: ...}) ON CREATE SET ...`: create the
node only if no message with that uuid exists. -/
def mergeMessageNode (st : GraphState) (n : MessageNode) : GraphState :=
  if msgMem st n.uuid then st
  else { st with messages := st.messages ++ [n] }

/-- `MERGE (c)-[:CONTAINS]->(m)`: add the edge if absent. -/
def addConvMsgEdge (st : GraphState) (e : String × String) : GraphState :=
  if e ∈ st.convMsgEdges then st
  else { st with convMsgEdges := st.convMsgEdges ++ [e] }

/-- `MERGE (p)-[:HAS_CONVERSATION]->(c)`: add the edge if absent. -/
def addProjConvEdge (st : GraphState) (e : String × String) : GraphState :=
  if e ∈ st.projConvEdges then st
  else { st with projConvEdges := st.projConvEdges ++ [e] }

/-- One content block query of `ingestMessage`:
`MATCH (m:Rewind_Message {uuid}) MERGE (m)-[:HAS_BLOCK]->(b:Rewind_ContentBlock
{messageUuid, index}) ON CREATE SET b.type, b.data`. If the message is
absent the `MATCH` yields no rows and nothing happens. The merged pattern
(block node plus its edge) exists iff the block node exists, because the
two are only ever created together and the composite uniqueness constraint
on `(messageUuid, index)` forbids a second block under the same key. -/
def mergeBlock (st : GraphState) (u : String) (i : Nat) (b : Block) : GraphState :=
  if msgMem st u then
    if blockMem st u i then st
    else
      { st with
        blocks := st.blocks ++ [⟨u, i, blockTypeOf b, b⟩]
        msgBlockEdges := st.msgBlockEdges ++ [(u, i)] }
  else st

/-- The `for (let i = 0; i < content.length; i++)` loop over content
blocks, starting at index `i`. -/
def mergeBlocksAux (st : GraphState) (u : String) (i : Nat) : List Block → GraphState
  | [] => st
  | b :: rest => mergeBlocksAux (mergeBlock st u i b) u (i + 1) rest

/-- The content array of an assistant message, when
`message.type === 'assistant' && 'content' in message.message &&
Array.isArray(content)` holds. -/
def contentArr (msg : ConversationMessage) : Option (List Block) :=
  if msg.mtype = "assistant" then
    match msg.message.content with
    | some (.arr bs) => some bs
    | _ => none
  else none

/-- The content blocks a message carries into ingestion (empty when the
assistant/array guard fails). -/
def contentBlocksOf (msg : ConversationMessage) : List Block :=
  (contentArr msg).getD []

/-- The content block phase of `ingestMessage`. With a null uuid the block
queries `MATCH` nothing (`{uuid: null}` matches no node) and do nothing. -/
def ingestBlocks (st : GraphState) (msg : ConversationMessage) : GraphState :=
  match contentArr msg, msg.uuid with
  | some bs, some u => mergeBlocksAux st u 0 bs
  | _, _ => st

/-- `ingestMessage` from the ingest route: the message `MERGE` query
(`MATCH` conversation, `MERGE` message node, `MERGE` `CONTAINS` edge)
followed by the content block loop. When the conversation is absent the
first query's `MATCH` yields no rows, so neither the message `MERGE` nor
its null-key check runs; when the conversation exists and the record has no
uuid, `MERGE {uuid: null}` raises, failing the transaction. -/
def ingestMessage (st : GraphState) (now : Nat) (conversationId : String)
    (msg : ConversationMessage) : Except IngestError GraphState :=
  if convMem st conversationId then
    match msg.uuid with
    | none => .error .nullMergeKey
    | some u =>
        .ok (ingestBlocks
          (addConvMsgEdge (mergeMessageNode st (messageNodeOf now u msg)) (conversationId, u))
          msg)
  else .ok (ingestBlocks st msg)

/-- The first query of `ensureProjectAndConversation`:
`MERGE (p:Rewind_Project {id}) ON CREATE SET p.path, p.name, p.displayName,
p.createdAt`. -/
def mergeProject (st : GraphState) (now : Nat) (projectId : String)
    (projectPath : Option String) : GraphState :=
  if projMem st projectId then st
  else { st with projects := st.projects ++ [⟨projectId, projectPath, projectId, projectId, now⟩] }

/-- The second query of `ensureProjectAndConversation`: `MATCH` the project
(no rows, no effect, when absent), `MERGE` the conversation node seeded
from the first message only at creation, and `MERGE` the
`HAS_CONVERSATION` edge. -/
def mergeConversation (st : GraphState) (now : Nat) (projectId : String)
    (conversationId : String) (firstMessage : ConversationMessage) : GraphState :=
  if projMem st projectId then
    addProjConvEdge
      (if convMem st conversationId then st
       else
        { st with
          conversations :=
            st.conversations ++ [⟨conversationId, firstMessage.uuid, firstMessage.timestamp, now, none⟩] })
      (projectId, conversationId)
  else st

/-- `ensureProjectAndConversation` from the ingest route: its two queries
in order. -/
def ensureProjectAndConversation (st : GraphState) (now : Nat) (projectId : String)
    (projectPath : Option String) (conversationId : String)
    (firstMessage : ConversationMessage) : GraphState :=
  mergeConversation (mergeProject st now projectId projectPath) now projectId
    conversationId firstMessage

/-- The loop `for (const message of messages) await ingestMessage(...)`
inside the batch write transaction; the first error aborts the body. -/
def ingestAll (st : GraphState) (now : Nat) (cid : String) :
    List ConversationMessage → Except IngestError GraphState
  | [] => .ok st
  | m :: rest =>
      match ingestMessage st now cid m with
      | .error e => .error e
      | .ok s => ingestAll s now cid rest

/-- The body of the batch endpoint's `session.executeWrite`:
`ensureProjectAndConversation` seeded from `messages[0]`, then every
message in order. Only reached with a nonempty list. -/
def runBatchTx (st : GraphState) (now : Nat) (pid : String) (ppath : Option String)
    (cid : String) (msgs : List ConversationMessage) : Except IngestError GraphState :=
  match msgs with
  | [] => .ok st
  | first :: _ =>
      ingestAll (ensureProjectAndConversation st now pid ppath cid first) now cid msgs

/-- The body of the single-message endpoint's `session.executeWrite`. -/
def runSingleTx (st : GraphState) (now : Nat) (pid : String) (ppath : Option String)
    (cid : String) (m : ConversationMessage) : Except IngestError GraphState :=
  ingestMessage (ensureProjectAndConversation st now pid ppath cid m) now cid m

/-- Response bodies the two ingest endpoints produce: `{success: true}`
with an optional `ingested` count, or `{error: ...}`. -/
inductive RespBody where
  | success (ingested : Option Nat)
  | failure (error : String)
deriving DecidableEq

/-- An HTTP response: status code and JSON body. -/
structure Resp where
  status : Nat
  body : RespBody
deriving DecidableEq

/-- What an endpoint call produces: the response, the graph state after the
call (the original state when the transaction failed and was rolled back),
and how many write transactions were opened. -/
structure EndpointResult where
  resp : Resp
  state : GraphState
  txCount : Nat
deriving DecidableEq

/-- The parsed JSON body of `POST /ingest/batch`. A missing field is
`none`; `messages` is `none` when missing or not an array. -/
structure BatchPayload where
  projectId : Option String
  projectPath : Option String
  conversationId : Option String
  messages : Option (List ConversationMessage)
deriving DecidableEq

/-- The parsed JSON body of `POST /ingest`. -/
structure SinglePayload where
  projectId : Option String
  projectPath : Option String
  conversationId : Option String
  message : Option ConversationMessage
deriving DecidableEq

/-- `POST /ingest/batch` (`app.post('/batch')` in the ingest route):
validate, short-circuit the empty batch without opening a transaction, run
the batch transaction, and report `500` with the transaction rolled back on
error. -/
def batchPost (st : GraphState) (now : Nat) (p : BatchPayload) : EndpointResult :=
  match p.messages with
  | none => ⟨⟨400, .failure "Missing required fields"⟩, st, 0⟩
  | some msgs =>
      if truthy p.projectId && truthy p.conversationId then
        if msgs.isEmpty then ⟨⟨200, .success (some 0)⟩, st, 0⟩
        else
          match runBatchTx st now (p.projectId.getD "") p.projectPath
              (p.conversationId.getD "") msgs with
          | .ok s => ⟨⟨200, .success (some msgs.length)⟩, s, 1⟩
          | .error _ => ⟨⟨500, .failure "Failed to ingest messages"⟩, st, 1⟩
      else ⟨⟨400, .failure "Missing required fields"⟩, st, 0⟩

/-- `POST /ingest` (`app.post('/')` in the ingest route): the
single-message legacy endpoint. -/
def singlePost (st : GraphState) (now : Nat) (p : SinglePayload) : EndpointResult :=
  match p.message with
  | none => ⟨⟨400, .failure "Missing required fields"⟩, st, 0⟩
  | some m =>
      if truthy p.projectId && truthy p.conversationId then
        match runSingleTx st now (p.projectId.getD "") p.projectPath
            (p.conversationId.getD "") m with
        | .ok s => ⟨⟨200, .success none⟩, s, 1⟩
        | .error _ => ⟨⟨500, .failure "Failed to ingest message"⟩, st, 1⟩
      else ⟨⟨400, .failure "Missing required fields"⟩, st, 0⟩

/-- `ORDER BY m.timestamp ASC` comparison on the stored (string) timestamp
property: lexicographic by code point on the string's character list, with
an absent property sorting last, as Neo4j sorts nulls last under ascending
order. -/
def tsLE : Option String → Option String → Prop
  | _, none => True
  | none, some _ => False
  | some a, some b => a.data ≤ b.data

instance : DecidableRel tsLE := fun a b =>
  match a, b with
  | none, none => isTrue trivial
  | some _, none => isTrue trivial
  | none, some _ => isFalse id
  | some a, some b => inferInstanceAs (Decidable (a.data ≤ b.data))

/-- The message ordering used by `getConversation`'s Cypher query: by the
`timestamp` property only. -/
def msgLE (a b : MessageNode) : Prop := tsLE a.timestamp b.timestamp

instance : DecidableRel msgLE := fun a b =>
  inferInstanceAs (Decidable (tsLE a.timestamp b.timestamp))

instance : IsTotal MessageNode msgLE where
  total a b := by
    unfold msgLE tsLE
    cases a.timestamp with
    | none => cases b.timestamp <;> simp
    | some x => cases b.timestamp with
      | none => simp
      | some y => exact le_total x.data y.data

instance : IsTrans MessageNode msgLE where
  trans a b c hab hbc := by
    unfold msgLE tsLE at hab hbc ⊢
    cases ha : a.timestamp <;> cases hb : b.timestamp <;> cases hc : c.timestamp <;>
      simp_all
    exact le_trans hab hbc

/-- One message row as returned by `getConversation`: the properties of the
`RETURN m {...}` map together with the JS-side mapping (`message` is
`JSON.parse(m.messageData)`, which is always stored by ingestion, so the
reconstruction fallback for nodes without `messageData` never fires;
`usage` follows `m.inputTokens ? {...} : undefined` with `toNumber(null) = 0`). -/
structure RetMessage where
  uuid : String
  mtype : String
  timestamp : Option String
  parentUuid : Option String
  isSidechain : Bool
  userType : Option String
  cwd : Option String
  sessionId : Option String
  version : Option String
  gitBranch : Option String
  agentId : Option String
  requestId : Option String
  message : MessageBody
  usage : Option Usage
deriving DecidableEq

/-- The JS record mapping applied to one returned message node. -/
def toRet (n : MessageNode) : RetMessage :=
  { uuid := n.uuid
    mtype := n.mtype
    timestamp := n.timestamp
    parentUuid := n.parentUuid
    isSidechain := n.isSidechain
    userType := n.userType
    cwd := n.cwd
    sessionId := n.sessionId
    version := n.version
    gitBranch := n.gitBranch
    agentId := n.agentId
    requestId := n.requestId
    message := n.messageData
    usage := n.inputTokens.map (fun it => ⟨it, n.outputTokens.getD 0⟩) }

/-- The message nodes of a conversation, in store order: the rows of
`MATCH (c {sessionId})-[:CONTAINS]->(m:Rewind_Message)`. -/
def conversationMessageNodes (st : GraphState) (cid : String) : List MessageNode :=
  st.messages.filter (fun m => (cid, m.uuid) ∈ st.convMsgEdges)

/-- The ordered message rows of `getConversation`: the conversation's
message nodes sorted by `ORDER BY m.timestamp ASC`. The sort is stable
with respect to store order; the query has no further sort key. -/
def getConversationMessages (st : GraphState) (cid : String) : List RetMessage :=
  (List.insertionSort msgLE (conversationMessageNodes st cid)).map toRet

/-- The part of `getConversation`'s result the ingestion contract is about:
identity fields of the conversation row plus the ordered messages. -/
structure RConversation where
  sessionId : String
  uuid : Option String
  timestamp : Option String
  messages : List RetMessage
deriving DecidableEq

/-- `getConversation` from `queries.ts`: `null` when no conversation node
matches the sessionId, else the conversation row with its ordered
messages. -/
def getConversation (st : GraphState) (cid : String) : Option RConversation :=
  match st.conversations.find? (fun c => c.sessionId == cid) with
  | none => none
  | some c => some ⟨c.sessionId, c.uuid, c.timestamp, getConversationMessages st cid⟩

/-- The starred flip `SET c.starred = NOT COALESCE(c.starred, false)`
applied to one conversation node. -/
def flipStar (c : ConversationNode) : ConversationNode :=
  { c with starred := some (!(c.starred.getD false)) }

/-- `toggleConversationStar` from `queries.ts`: flip `starred` on every
node matched by sessionId (at most one under the uniqueness constraint),
throw `Conversation not found` when no row comes back, else return the new
flag. -/
def toggleConversationStar (st : GraphState) (sid : String) :
    Except String (Bool × GraphState) :=
  let updated := st.conversations.map (fun c => if c.sessionId == sid then flipStar c else c)
  match updated.find? (fun c => c.sessionId == sid) with
  | none => .error "Conversation not found"
  | some c => .ok (c.starred.getD false, { st with conversations := updated })

/-! ### Concrete fixtures used by witnesses and counterexamples -/

/-- A user transcript record for concrete runs. -/
def exUserMsg : ConversationMessage :=
  ⟨some "m1", "user", some "t1", none, none, none, none, some "c1", some "1.0", none, none, none,
   ⟨none, none, some (.str "hello")⟩⟩

/-- An assistant record with two content blocks for concrete runs. -/
def exAsstMsg : ConversationMessage :=
  ⟨some "m2", "assistant", some "t2", some "m1", none, none, none, some "c1", some "1.0", none,
   none, none,
   ⟨some "model-x", some ⟨3, 5⟩, some (.arr [⟨some "text", some "hi"⟩, ⟨some "tool_use", none⟩])⟩⟩

/-- A record with no uuid: the driver receives a null merge key for it. -/
def exBadMsg : ConversationMessage := { exUserMsg with uuid := none }

/-- The example batch payload. -/
def exPayload : BatchPayload := ⟨some "p1", some "/w", some "c1", some [exUserMsg, exAsstMsg]⟩

/-- The graph after one successful ingestion of the example batch. -/
def exOnce : GraphState := (batchPost GraphState.empty 7 exPayload).state

/-- A user record with timestamp "T" and uuid "b", ingested first. -/
def tieMsgB : ConversationMessage :=
  ⟨some "b", "user", some "T", none, none, none, none, some "c1", some "1.0", none, none, none,
   ⟨none, none, some (.str "x")⟩⟩

/-- The same record with uuid "a", ingested second: equal timestamps, store
order opposite to uuid order. -/
def tieMsgA : ConversationMessage := { tieMsgB with uuid := some "a" }

/-- The graph after ingesting the tied-timestamp batch (store order: "b"
then "a"). -/
def tieSt : GraphState :=
  (batchPost GraphState.empty 0 ⟨some "p1", none, some "c1", some [tieMsgB, tieMsgA]⟩).state

/-- The conversation fetched back from the tied-timestamp graph. -/
def tieConv : RConversation := (getConversation tieSt "c1").getD ⟨"", none, none, []⟩

/-! ### List helpers -/

theorem find_on_append_of_some {α : Type} {p : α → Bool} {l₁ l₂ : List α} {a : α}
    (h : l₁.find? p = some a) : (l₁ ++ l₂).find? p = some a := by
  rw [List.find?_append, h]; rfl

/-! ### Append extension: what one write can do to the store

Every write inside the ingestion transaction only ever appends nodes and
edges; nothing is removed or rewritten. `GExt st s` records that `s` extends
`st` fieldwise by appends. -/

structure GExt (st s : GraphState) : Prop where
  projects : ∃ t, s.projects = st.projects ++ t
  conversations : ∃ t, s.conversations = st.conversations ++ t
  messages : ∃ t, s.messages = st.messages ++ t
  blocks : ∃ t, s.blocks = st.blocks ++ t
  projConvEdges : ∃ t, s.projConvEdges = st.projConvEdges ++ t
  convMsgEdges : ∃ t, s.convMsgEdges = st.convMsgEdges ++ t
  msgBlockEdges : ∃ t, s.msgBlockEdges = st.msgBlockEdges ++ t

theorem listExt_refl {α : Type} (l : List α) : ∃ t, l = l ++ t := ⟨[], by simp⟩

theorem listExt_trans {α : Type} {x y z : List α}
    (h1 : ∃ t, y = x ++ t) (h2 : ∃ t, z = y ++ t) : ∃ t, z = x ++ t := by
  obtain ⟨t1, rfl⟩ := h1
  obtain ⟨t2, rfl⟩ := h2
  exact ⟨t1 ++ t2, by rw [List.append_assoc]⟩

theorem GExt.rfl (st : GraphState) : GExt st st :=
  ⟨listExt_refl _, listExt_refl _, listExt_refl _, listExt_refl _,
   listExt_refl _, listExt_refl _, listExt_refl _⟩

theorem GExt.trans {a b c : GraphState} (h1 : GExt a b) (h2 : GExt b c) : GExt a c :=
  ⟨listExt_trans h1.projects h2.projects,
   listExt_trans h1.conversations h2.conversations,
   listExt_trans h1.messages h2.messages,
   listExt_trans h1.blocks h2.blocks,
   listExt_trans h1.projConvEdges h2.projConvEdges,
   listExt_trans h1.convMsgEdges h2.convMsgEdges,
   listExt_trans h1.msgBlockEdges h2.msgBlockEdges⟩

theorem any_of_listExt {α : Type} {p : α → Bool} {x y : List α}
    (h : ∃ t, y = x ++ t) (hx : x.any p = true) : y.any p = true := by
  obtain ⟨t, rfl⟩ := h
  simp [List.any_append, hx]

theorem mem_of_listExt {α : Type} {a : α} {x y : List α}
    (h : ∃ t, y = x ++ t) (hx : a ∈ x) : a ∈ y := by
  obtain ⟨t, rfl⟩ := h
  exact List.mem_append_left _ hx

theorem find_of_listExt {α : Type} {p : α → Bool} {a : α} {x y : List α}
    (h : ∃ t, y = x ++ t) (hx : x.find? p = some a) : y.find? p = some a := by
  obtain ⟨t, rfl⟩ := h
  exact find_on_append_of_some hx

/-! ### Extension facts for the single write operations -/

theorem mergeMessageNode_ext (st : GraphState) (n : MessageNode) :
    GExt st (mergeMessageNode st n) := by
  unfold mergeMessageNode
  split
  · exact GExt.rfl st
  · exact ⟨listExt_refl _, listExt_refl _, ⟨[n], by simp⟩, listExt_refl _,
      listExt_refl _, listExt_refl _, listExt_refl _⟩

theorem addConvMsgEdge_ext (st : GraphState) (e : String × String) :
    GExt st (addConvMsgEdge st e) := by
  unfold addConvMsgEdge
  split
  · exact GExt.rfl st
  · exact ⟨listExt_refl _, listExt_refl _, listExt_refl _, listExt_refl _,
      listExt_refl _, ⟨[e], by simp⟩, listExt_refl _⟩

theorem addProjConvEdge_ext (st : GraphState) (e : String × String) :
    GExt st (addProjConvEdge st e) := by
  unfold addProjConvEdge
  split
  · exact GExt.rfl st
  · exact ⟨listExt_refl _, listExt_refl _, listExt_refl _, listExt_refl _,
      ⟨[e], by simp⟩, listExt_refl _, listExt_refl _⟩

theorem mergeBlock_ext (st : GraphState) (u : String) (i : Nat) (b : Block) :
    GExt st (mergeBlock st u i b) := by
  unfold mergeBlock
  split
  · split
    · exact GExt.rfl st
    · exact ⟨listExt_refl _, listExt_refl _, listExt_refl _, ⟨[⟨u, i, blockTypeOf b, b⟩], by simp⟩,
        listExt_refl _, listExt_refl _, ⟨[(u, i)], by simp⟩⟩
  · exact GExt.rfl st

theorem mergeBlocksAux_ext (u : String) (bs : List Block) :
    ∀ (st : GraphState) (i : Nat), GExt st (mergeBlocksAux st u i bs) := by
  induction bs with
  | nil => intro st i; exact GExt.rfl st
  | cons b rest ih =>
      intro st i
      exact GExt.trans (mergeBlock_ext st u i b) (ih (mergeBlock st u i b) (i + 1))

theorem ingestBlocks_ext (st : GraphState) (msg : ConversationMessage) :
    GExt st (ingestBlocks st msg) := by
  unfold ingestBlocks
  cases contentArr msg with
  | none => cases msg.uuid <;> exact GExt.rfl st
  | some bs => cases msg.uuid with
    | none => exact GExt.rfl st
    | some u => exact mergeBlocksAux_ext u bs st 0

theorem ingestMessage_ext {st s : GraphState} {now : Nat} {cid : String}
    {msg : ConversationMessage} (h : ingestMessage st now cid msg = .ok s) : GExt st s := by
  unfold ingestMessage at h
  split at h
  · cases hu : msg.uuid with
    | none => rw [hu] at h; simp at h
    | some u =>
        rw [hu] at h
        simp only [Except.ok.injEq] at h
        subst h
        exact GExt.trans (mergeMessageNode_ext st (messageNodeOf now u msg))
          (GExt.trans (addConvMsgEdge_ext _ (cid, u)) (ingestBlocks_ext _ msg))
  · simp only [Except.ok.injEq] at h
    subst h
    exact ingestBlocks_ext st msg

theorem mergeProject_ext (st : GraphState) (now : Nat) (pid : String) (pp : Option String) :
    GExt st (mergeProject st now pid pp) := by
  unfold mergeProject
  split
  · exact GExt.rfl st
  · exact ⟨⟨[⟨pid, pp, pid, pid, now⟩], by simp⟩, listExt_refl _, listExt_refl _,
      listExt_refl _, listExt_refl _, listExt_refl _, listExt_refl _⟩

theorem mergeConversation_ext (st : GraphState) (now : Nat) (pid : String) (cid : String)
    (fm : ConversationMessage) : GExt st (mergeConversation st now pid cid fm) := by
  unfold mergeConversation
  split
  · refine GExt.trans ?h1 (addProjConvEdge_ext _ (pid, cid))
    split
    · exact GExt.rfl _
    · exact ⟨listExt_refl _, ⟨[⟨cid, fm.uuid, fm.timestamp, now, none⟩], by simp⟩, listExt_refl _,
        listExt_refl _, listExt_refl _, listExt_refl _, listExt_refl _⟩
  · exact GExt.rfl _

theorem ensurePC_ext (st : GraphState) (now : Nat) (pid : String) (pp : Option String)
    (cid : String) (fm : ConversationMessage) :
    GExt st (ensureProjectAndConversation st now pid pp cid fm) :=
  GExt.trans (mergeProject_ext st now pid pp)
    (mergeConversation_ext (mergeProject st now pid pp) now pid cid fm)

theorem ingestAll_ext {now : Nat} {cid : String} {msgs : List ConversationMessage} :
    ∀ {st s : GraphState}, ingestAll st now cid msgs = .ok s → GExt st s := by
  induction msgs with
  | nil => intro st s h; simp only [ingestAll, Except.ok.injEq] at h; subst h; exact GExt.rfl _
  | cons m rest ih =>
      intro st s h
      unfold ingestAll at h
      cases hm : ingestMessage st now cid m with
      | error e => rw [hm] at h; simp at h
      | ok s1 =>
          rw [hm] at h
          exact GExt.trans (ingestMessage_ext hm) (ih h)

/-! ### Frame facts: which fields each write operation can touch -/

theorem mergeBlock_wFrame (st : GraphState) (u : String) (i : Nat) (b : Block) :
    (mergeBlock st u i b).projects = st.projects ∧
    (mergeBlock st u i b).conversations = st.conversations ∧
    (mergeBlock st u i b).messages = st.messages ∧
    (mergeBlock st u i b).projConvEdges = st.projConvEdges ∧
    (mergeBlock st u i b).convMsgEdges = st.convMsgEdges := by
  unfold mergeBlock
  split
  · split
    · exact ⟨rfl, rfl, rfl, rfl, rfl⟩
    · exact ⟨rfl, rfl, rfl, rfl, rfl⟩
  · exact ⟨rfl, rfl, rfl, rfl, rfl⟩

theorem mergeBlocksAux_wFrame (u : String) (bs : List Block) :
    ∀ (st : GraphState) (i : Nat),
    (mergeBlocksAux st u i bs).projects = st.projects ∧
    (mergeBlocksAux st u i bs).conversations = st.conversations ∧
    (mergeBlocksAux st u i bs).messages = st.messages ∧
    (mergeBlocksAux st u i bs).projConvEdges = st.projConvEdges ∧
    (mergeBlocksAux st u i bs).convMsgEdges = st.convMsgEdges := by
  induction bs with
  | nil => intro st i; exact ⟨rfl, rfl, rfl, rfl, rfl⟩
  | cons b rest ih =>
      intro st i
      have h1 := mergeBlock_wFrame st u i b
      have h2 := ih (mergeBlock st u i b) (i + 1)
      unfold mergeBlocksAux
      exact ⟨h2.1.trans h1.1, h2.2.1.trans h1.2.1, h2.2.2.1.trans h1.2.2.1,
        h2.2.2.2.1.trans h1.2.2.2.1, h2.2.2.2.2.trans h1.2.2.2.2⟩

theorem ingestBlocks_wFrame (st : GraphState) (msg : ConversationMessage) :
    (ingestBlocks st msg).projects = st.projects ∧
    (ingestBlocks st msg).conversations = st.conversations ∧
    (ingestBlocks st msg).messages = st.messages ∧
    (ingestBlocks st msg).projConvEdges = st.projConvEdges ∧
    (ingestBlocks st msg).convMsgEdges = st.convMsgEdges := by
  unfold ingestBlocks
  cases contentArr msg with
  | none => cases msg.uuid <;> exact ⟨rfl, rfl, rfl, rfl, rfl⟩
  | some bs => cases msg.uuid with
    | none => exact ⟨rfl, rfl, rfl, rfl, rfl⟩
    | some u => exact mergeBlocksAux_wFrame u bs st 0

theorem addConvMsgEdge_frame (st : GraphState) (e : String × String) :
    (addConvMsgEdge st e).projects = st.projects ∧
    (addConvMsgEdge st e).conversations = st.conversations ∧
    (addConvMsgEdge st e).messages = st.messages ∧
    (addConvMsgEdge st e).blocks = st.blocks ∧
    (addConvMsgEdge st e).projConvEdges = st.projConvEdges := by
  unfold addConvMsgEdge
  split
  · exact ⟨rfl, rfl, rfl, rfl, rfl⟩
  · exact ⟨rfl, rfl, rfl, rfl, rfl⟩

theorem mergeMessageNode_frame (st : GraphState) (n : MessageNode) :
    (mergeMessageNode st n).projects = st.projects ∧
    (mergeMessageNode st n).conversations = st.conversations ∧
    (mergeMessageNode st n).blocks = st.blocks ∧
    (mergeMessageNode st n).projConvEdges = st.projConvEdges ∧
    (mergeMessageNode st n).convMsgEdges = st.convMsgEdges := by
  unfold mergeMessageNode
  split
  · exact ⟨rfl, rfl, rfl, rfl, rfl⟩
  · exact ⟨rfl, rfl, rfl, rfl, rfl⟩

theorem ingestMessage_rFrame {st s : GraphState} {now : Nat} {cid : String}
    {msg : ConversationMessage} (h : ingestMessage st now cid msg = .ok s) :
    s.projects = st.projects ∧ s.conversations = st.conversations ∧
    s.projConvEdges = st.projConvEdges := by
  unfold ingestMessage at h
  split at h
  · cases hu : msg.uuid with
    | none => rw [hu] at h; simp at h
    | some u =>
        rw [hu] at h
        simp only [Except.ok.injEq] at h
        subst h
        have h1 := mergeMessageNode_frame st (messageNodeOf now u msg)
        have h2 := addConvMsgEdge_frame (mergeMessageNode st (messageNodeOf now u msg)) (cid, u)
        have h3 := ingestBlocks_wFrame
          (addConvMsgEdge (mergeMessageNode st (messageNodeOf now u msg)) (cid, u)) msg
        exact ⟨(h3.1.trans h2.1).trans h1.1, (h3.2.1.trans h2.2.1).trans h1.2.1,
          (h3.2.2.2.1.trans h2.2.2.2.2).trans h1.2.2.2.1⟩
  · simp only [Except.ok.injEq] at h
    subst h
    have h3 := ingestBlocks_wFrame st msg
    exact ⟨h3.1, h3.2.1, h3.2.2.2.1⟩

theorem ingestAll_rFrame {now : Nat} {cid : String} {msgs : List ConversationMessage} :
    ∀ {st s : GraphState}, ingestAll st now cid msgs = .ok s →
    s.projects = st.projects ∧ s.conversations = st.conversations ∧
    s.projConvEdges = st.projConvEdges := by
  induction msgs with
  | nil =>
      intro st s h
      simp only [ingestAll, Except.ok.injEq] at h
      subst h
      exact ⟨rfl, rfl, rfl⟩
  | cons m rest ih =>
      intro st s h
      unfold ingestAll at h
      cases hm : ingestMessage st now cid m with
      | error e => rw [hm] at h; simp at h
      | ok s1 =>
          rw [hm] at h
          have h1 := ingestMessage_rFrame hm
          have h2 := ih h
          exact ⟨h2.1.trans h1.1, h2.2.1.trans h1.2.1, h2.2.2.trans h1.2.2⟩

theorem addProjConvEdge_frame (st : GraphState) (e : String × String) :
    (addProjConvEdge st e).projects = st.projects ∧
    (addProjConvEdge st e).conversations = st.conversations ∧
    (addProjConvEdge st e).messages = st.messages ∧
    (addProjConvEdge st e).blocks = st.blocks ∧
    (addProjConvEdge st e).convMsgEdges = st.convMsgEdges ∧
    (addProjConvEdge st e).msgBlockEdges = st.msgBlockEdges := by
  unfold addProjConvEdge
  split
  · exact ⟨rfl, rfl, rfl, rfl, rfl, rfl⟩
  · exact ⟨rfl, rfl, rfl, rfl, rfl, rfl⟩

theorem mergeProject_frame (st : GraphState) (now : Nat) (pid : String) (pp : Option String) :
    (mergeProject st now pid pp).conversations = st.conversations ∧
    (mergeProject st now pid pp).messages = st.messages ∧
    (mergeProject st now pid pp).blocks = st.blocks ∧
    (mergeProject st now pid pp).projConvEdges = st.projConvEdges ∧
    (mergeProject st now pid pp).convMsgEdges = st.convMsgEdges ∧
    (mergeProject st now pid pp).msgBlockEdges = st.msgBlockEdges := by
  unfold mergeProject
  split
  · exact ⟨rfl, rfl, rfl, rfl, rfl, rfl⟩
  · exact ⟨rfl, rfl, rfl, rfl, rfl, rfl⟩

theorem mergeConversation_frame (st : GraphState) (now : Nat) (pid : String) (cid : String)
    (fm : ConversationMessage) :
    (mergeConversation st now pid cid fm).projects = st.projects ∧
    (mergeConversation st now pid cid fm).messages = st.messages ∧
    (mergeConversation st now pid cid fm).blocks = st.blocks ∧
    (mergeConversation st now pid cid fm).convMsgEdges = st.convMsgEdges ∧
    (mergeConversation st now pid cid fm).msgBlockEdges = st.msgBlockEdges := by
  unfold mergeConversation
  split
  · split
    · have h := addProjConvEdge_frame st (pid, cid)
      exact ⟨h.1, h.2.2.1, h.2.2.2.1, h.2.2.2.2.1, h.2.2.2.2.2⟩
    · have h := addProjConvEdge_frame
        { st with conversations := st.conversations ++ [⟨cid, fm.uuid, fm.timestamp, now, none⟩] }
        (pid, cid)
      exact ⟨h.1, h.2.2.1, h.2.2.2.1, h.2.2.2.2.1, h.2.2.2.2.2⟩
  · exact ⟨rfl, rfl, rfl, rfl, rfl⟩

theorem ensurePC_frame (st : GraphState) (now : Nat) (pid : String) (pp : Option String)
    (cid : String) (fm : ConversationMessage) :
    (ensureProjectAndConversation st now pid pp cid fm).messages = st.messages ∧
    (ensureProjectAndConversation st now pid pp cid fm).blocks = st.blocks ∧
    (ensureProjectAndConversation st now pid pp cid fm).convMsgEdges = st.convMsgEdges ∧
    (ensureProjectAndConversation st now pid pp cid fm).msgBlockEdges = st.msgBlockEdges := by
  have h1 := mergeProject_frame st now pid pp
  have h2 := mergeConversation_frame (mergeProject st now pid pp) now pid cid fm
  exact ⟨h2.2.1.trans h1.2.1, h2.2.2.1.trans h1.2.2.1,
    h2.2.2.2.1.trans h1.2.2.2.2.1, h2.2.2.2.2.trans h1.2.2.2.2.2⟩

/-! ### Creation facts: what each MERGE guarantees afterwards -/

theorem mergeProject_projMem (st : GraphState) (now : Nat) (pid : String) (pp : Option String) :
    projMem (mergeProject st now pid pp) pid = true := by
  unfold mergeProject
  split
  · assumption
  · unfold projMem
    simp [List.any_append]

theorem addProjConvEdge_mem (st : GraphState) (e : String × String) :
    e ∈ (addProjConvEdge st e).projConvEdges := by
  unfold addProjConvEdge
  split
  · assumption
  · simp

theorem addConvMsgEdge_mem (st : GraphState) (e : String × String) :
    e ∈ (addConvMsgEdge st e).convMsgEdges := by
  unfold addConvMsgEdge
  split
  · assumption
  · simp

theorem mergeMessageNode_msgMem (st : GraphState) (n : MessageNode) :
    msgMem (mergeMessageNode st n) n.uuid = true := by
  unfold mergeMessageNode
  split
  · assumption
  · unfold msgMem
    simp [List.any_append]

theorem mergeConversation_convMem (st : GraphState) (now : Nat) (pid : String) (cid : String)
    (fm : ConversationMessage) (hp : projMem st pid = true) :
    convMem (mergeConversation st now pid cid fm) cid = true := by
  unfold mergeConversation
  rw [if_pos hp]
  split
  · have h := addProjConvEdge_frame st (pid, cid)
    unfold convMem
    rw [h.2.1]
    assumption
  · have h := addProjConvEdge_frame
      { st with conversations := st.conversations ++ [⟨cid, fm.uuid, fm.timestamp, now, none⟩] }
      (pid, cid)
    unfold convMem
    rw [h.2.1]
    simp [List.any_append]

theorem mergeConversation_edge (st : GraphState) (now : Nat) (pid : String) (cid : String)
    (fm : ConversationMessage) (hp : projMem st pid = true) :
    (pid, cid) ∈ (mergeConversation st now pid cid fm).projConvEdges := by
  unfold mergeConversation
  rw [if_pos hp]
  split
  · exact addProjConvEdge_mem st (pid, cid)
  · exact addProjConvEdge_mem _ (pid, cid)

theorem mergeConversation_projMem (st : GraphState) (now : Nat) (pid : String) (cid : String)
    (fm : ConversationMessage) (pid' : String) (hp : projMem st pid' = true) :
    projMem (mergeConversation st now pid cid fm) pid' = true := by
  have h := mergeConversation_frame st now pid cid fm
  unfold projMem
  rw [h.1]
  exact hp

theorem ensurePC_mem (st : GraphState) (now : Nat) (pid : String) (pp : Option String)
    (cid : String) (fm : ConversationMessage) :
    projMem (ensureProjectAndConversation st now pid pp cid fm) pid = true ∧
    convMem (ensureProjectAndConversation st now pid pp cid fm) cid = true ∧
    (pid, cid) ∈ (ensureProjectAndConversation st now pid pp cid fm).projConvEdges := by
  have hp := mergeProject_projMem st now pid pp
  exact ⟨mergeConversation_projMem _ now pid cid fm pid hp,
    mergeConversation_convMem _ now pid cid fm hp,
    mergeConversation_edge _ now pid cid fm hp⟩

/-! ### No-op facts: a second MERGE of existing data changes nothing -/

theorem mergeProject_noop {st : GraphState} {pid : String} (now : Nat) (pp : Option String)
    (h : projMem st pid = true) : mergeProject st now pid pp = st := by
  unfold mergeProject
  exact if_pos h

theorem addProjConvEdge_noop {st : GraphState} {e : String × String}
    (h : e ∈ st.projConvEdges) : addProjConvEdge st e = st := by
  unfold addProjConvEdge
  exact if_pos h

theorem addConvMsgEdge_noop {st : GraphState} {e : String × String}
    (h : e ∈ st.convMsgEdges) : addConvMsgEdge st e = st := by
  unfold addConvMsgEdge
  exact if_pos h

theorem mergeMessageNode_noop {st : GraphState} {n : MessageNode}
    (h : msgMem st n.uuid = true) : mergeMessageNode st n = st := by
  unfold mergeMessageNode
  exact if_pos h

theorem mergeConversation_noop {st : GraphState} {cid : String} (now : Nat) (pid : String)
    (fm : ConversationMessage) (hc : convMem st cid = true)
    (he : (pid, cid) ∈ st.projConvEdges) : mergeConversation st now pid cid fm = st := by
  unfold mergeConversation
  rw [if_pos hc, addProjConvEdge_noop he]
  split <;> rfl

theorem ensurePC_noop {st : GraphState} {pid cid : String} (now : Nat) (pp : Option String)
    (fm : ConversationMessage) (hp : projMem st pid = true) (hc : convMem st cid = true)
    (he : (pid, cid) ∈ st.projConvEdges) :
    ensureProjectAndConversation st now pid pp cid fm = st := by
  unfold ensureProjectAndConversation
  rw [mergeProject_noop now pp hp]
  exact mergeConversation_noop now pid fm hc he

theorem mergeBlock_noop {st : GraphState} {u : String} {i : Nat} (b : Block)
    (h : blockMem st u i = true) : mergeBlock st u i b = st := by
  unfold mergeBlock
  rw [if_pos h]
  split <;> rfl

theorem mergeBlocksAux_noop {u : String} {bs : List Block} :
    ∀ {st : GraphState} {i : Nat}, (∀ j, j < bs.length → blockMem st u (i + j) = true) →
    mergeBlocksAux st u i bs = st := by
  induction bs with
  | nil => intro st i _; rfl
  | cons b rest ih =>
      intro st i h
      have h0 : blockMem st u i = true := by
        have := h 0 (by simp)
        simpa using this
      have hb : mergeBlock st u i b = st := mergeBlock_noop b h0
      unfold mergeBlocksAux
      rw [hb]
      refine ih ?hrest
      intro j hj
      have := h (j + 1) (by simpa using Nat.succ_lt_succ hj)
      rwa [show i + (j + 1) = (i + 1) + j by omega] at this

/-! ### Saturation: a message that a successful ingest has fully materialized -/

/-- All graph material that `ingestMessage` can create for `msg` under
conversation `cid` is already present: the message node, its `CONTAINS`
edge, and one content block per ordinal index. -/
def msgDone (st : GraphState) (cid : String) (msg : ConversationMessage) : Prop :=
  ∃ u, msg.uuid = some u ∧ msgMem st u = true ∧ (cid, u) ∈ st.convMsgEdges ∧
    ∀ i, i < (contentBlocksOf msg).length → blockMem st u i = true

theorem msgDone_mono {st s : GraphState} {cid : String} {msg : ConversationMessage}
    (hext : GExt st s) (h : msgDone st cid msg) : msgDone s cid msg := by
  obtain ⟨u, hu, hm, he, hb⟩ := h
  exact ⟨u, hu, any_of_listExt hext.messages hm, mem_of_listExt hext.convMsgEdges he,
    fun i hi => any_of_listExt hext.blocks (hb i hi)⟩

theorem ingestBlocks_noop {st : GraphState} {msg : ConversationMessage} {u : String}
    (hu : msg.uuid = some u)
    (hb : ∀ i, i < (contentBlocksOf msg).length → blockMem st u i = true) :
    ingestBlocks st msg = st := by
  unfold ingestBlocks
  cases hca : contentArr msg with
  | none => rw [hu]
  | some bs =>
      rw [hu]
      refine mergeBlocksAux_noop ?hall
      intro j hj
      have : j < (contentBlocksOf msg).length := by
        rw [contentBlocksOf, hca]
        simpa using hj
      simpa using hb j this

theorem ingestMessage_noop {st : GraphState} {cid : String} {msg : ConversationMessage}
    (now : Nat) (hc : convMem st cid = true) (hd : msgDone st cid msg) :
    ingestMessage st now cid msg = .ok st := by
  obtain ⟨u, hu, hm, he, hb⟩ := hd
  unfold ingestMessage
  rw [if_pos hc, hu]
  show Except.ok (ingestBlocks
    (addConvMsgEdge (mergeMessageNode st (messageNodeOf now u msg)) (cid, u)) msg) = Except.ok st
  rw [mergeMessageNode_noop hm, addConvMsgEdge_noop he, ingestBlocks_noop hu hb]

theorem blockMem_mergeBlock_self {st : GraphState} {u : String} {i : Nat} (b : Block)
    (hm : msgMem st u = true) : blockMem (mergeBlock st u i b) u i = true := by
  unfold mergeBlock
  rw [if_pos hm]
  split
  · assumption
  · unfold blockMem
    simp [List.any_append]

theorem msgMem_mergeBlock (st : GraphState) (u' : String) (i : Nat) (b : Block) (u : String) :
    msgMem (mergeBlock st u' i b) u = msgMem st u := by
  have h := mergeBlock_wFrame st u' i b
  unfold msgMem
  rw [h.2.2.1]

theorem mergeBlocksAux_fills {u : String} {bs : List Block} :
    ∀ {st : GraphState} {i : Nat}, msgMem st u = true →
    ∀ j, j < bs.length → blockMem (mergeBlocksAux st u i bs) u (i + j) = true := by
  induction bs with
  | nil => intro st i _ j hj; simp at hj
  | cons b rest ih =>
      intro st i hm j hj
      cases j with
      | zero =>
          have h0 : blockMem (mergeBlock st u i b) u i = true :=
            blockMem_mergeBlock_self b hm
          have hets := mergeBlocksAux_ext u rest (mergeBlock st u i b) (i + 1)
          have h2 : blockMem (mergeBlocksAux (mergeBlock st u i b) u (i + 1) rest) u i = true := by
            unfold blockMem at h0 ⊢
            exact any_of_listExt hets.blocks h0
          unfold mergeBlocksAux
          simpa using h2
      | succ j' =>
          have hm' : msgMem (mergeBlock st u i b) u = true := by
            rwa [msgMem_mergeBlock]
          have := @ih (mergeBlock st u i b) (i + 1) hm' j' (by simpa using Nat.lt_of_succ_lt_succ hj)
          unfold mergeBlocksAux
          rwa [show (i + 1) + j' = i + (j' + 1) by omega] at this

theorem ingestBlocks_fills {st : GraphState} {msg : ConversationMessage} {u : String}
    (hu : msg.uuid = some u) (hm : msgMem st u = true) :
    ∀ i, i < (contentBlocksOf msg).length → blockMem (ingestBlocks st msg) u i = true := by
  intro i hi
  unfold ingestBlocks
  cases hca : contentArr msg with
  | none =>
      rw [contentBlocksOf, hca] at hi
      simp at hi
  | some bs =>
      rw [hu]
      rw [contentBlocksOf, hca] at hi
      simp only [Option.getD_some] at hi
      have := @mergeBlocksAux_fills u bs st 0 hm i hi
      simpa using this

theorem ingestMessage_fills {st s : GraphState} {now : Nat} {cid : String}
    {msg : ConversationMessage} (hc : convMem st cid = true)
    (h : ingestMessage st now cid msg = .ok s) : msgDone s cid msg := by
  unfold ingestMessage at h
  rw [if_pos hc] at h
  cases hu : msg.uuid with
  | none => rw [hu] at h; simp at h
  | some u =>
      rw [hu] at h
      simp only [Except.ok.injEq] at h
      subst h
      refine ⟨u, hu, ?hmem, ?hedge, ?hblocks⟩
      case hmem =>
        have h1 : msgMem (mergeMessageNode st (messageNodeOf now u msg)) u = true := by
          have := mergeMessageNode_msgMem st (messageNodeOf now u msg)
          simpa [messageNodeOf] using this
        have h2 := addConvMsgEdge_frame (mergeMessageNode st (messageNodeOf now u msg)) (cid, u)
        have h3 := ingestBlocks_wFrame
          (addConvMsgEdge (mergeMessageNode st (messageNodeOf now u msg)) (cid, u)) msg
        unfold msgMem at h1 ⊢
        rw [h3.2.2.1, h2.2.2.1]
        exact h1
      case hedge =>
        have h1 := addConvMsgEdge_mem (mergeMessageNode st (messageNodeOf now u msg)) (cid, u)
        have h3 := ingestBlocks_wFrame
          (addConvMsgEdge (mergeMessageNode st (messageNodeOf now u msg)) (cid, u)) msg
        rw [h3.2.2.2.2]
        exact h1
      case hblocks =>
        have h1 : msgMem (addConvMsgEdge (mergeMessageNode st (messageNodeOf now u msg)) (cid, u))
            u = true := by
          have hmm := mergeMessageNode_msgMem st (messageNodeOf now u msg)
          have h2 := addConvMsgEdge_frame (mergeMessageNode st (messageNodeOf now u msg)) (cid, u)
          unfold msgMem at hmm ⊢
          rw [h2.2.2.1]
          simpa [messageNodeOf] using hmm
        exact ingestBlocks_fills hu h1

theorem ingestAll_fills {now : Nat} {cid : String} {msgs : List ConversationMessage} :
    ∀ {st s : GraphState}, convMem st cid = true → ingestAll st now cid msgs = .ok s →
    ∀ m ∈ msgs, msgDone s cid m := by
  induction msgs with
  | nil => intro st s _ _ m hm; simp at hm
  | cons m0 rest ih =>
      intro st s hc h m hm
      unfold ingestAll at h
      cases h0 : ingestMessage st now cid m0 with
      | error e => rw [h0] at h; simp at h
      | ok s1 =>
          rw [h0] at h
          have hc1 : convMem s1 cid = true := by
            unfold convMem
            rw [(ingestMessage_rFrame h0).2.1]
            exact hc
          cases List.mem_cons.mp hm with
          | inl heq =>
              subst heq
              exact msgDone_mono (ingestAll_ext h) (ingestMessage_fills hc h0)
          | inr hrest => exact ih hc1 h m hrest

theorem ingestAll_noop {now : Nat} {cid : String} {msgs : List ConversationMessage} :
    ∀ {st : GraphState}, convMem st cid = true → (∀ m ∈ msgs, msgDone st cid m) →
    ingestAll st now cid msgs = .ok st := by
  induction msgs with
  | nil => intro st _ _; rfl
  | cons m0 rest ih =>
      intro st hc hall
      unfold ingestAll
      rw [ingestMessage_noop now hc (hall m0 (List.mem_cons_self m0 rest))]
      exact ih hc (fun m hm => hall m (List.mem_cons_of_mem m0 hm))

/-! ### Error behaviour of the batch transaction body -/

theorem ingestAll_err_of_missing_uuid {now : Nat} {cid : String}
    {msgs : List ConversationMessage} :
    ∀ {st : GraphState}, convMem st cid = true → (∃ m ∈ msgs, m.uuid = none) →
    ingestAll st now cid msgs = .error .nullMergeKey := by
  induction msgs with
  | nil => intro st _ hex; simp at hex
  | cons m0 rest ih =>
      intro st hc hex
      unfold ingestAll
      cases hu : m0.uuid with
      | none =>
          have : ingestMessage st now cid m0 = .error .nullMergeKey := by
            unfold ingestMessage
            rw [if_pos hc, hu]
          rw [this]
      | some u =>
          have hok : ingestMessage st now cid m0 =
              .ok (ingestBlocks (addConvMsgEdge
                (mergeMessageNode st (messageNodeOf now u m0)) (cid, u)) m0) := by
            unfold ingestMessage
            rw [if_pos hc, hu]
          rw [hok]
          have hc1 : convMem (ingestBlocks (addConvMsgEdge
              (mergeMessageNode st (messageNodeOf now u m0)) (cid, u)) m0) cid = true := by
            unfold convMem
            rw [(ingestMessage_rFrame hok).2.1]
            exact hc
          refine ih hc1 ?hex
          obtain ⟨m, hm, hmu⟩ := hex
          cases List.mem_cons.mp hm with
          | inl heq => subst heq; rw [hu] at hmu; cases hmu
          | inr hrest => exact ⟨m, hrest, hmu⟩

theorem ingestAll_ok_of_uuids {now : Nat} {cid : String} {msgs : List ConversationMessage} :
    ∀ {st : GraphState}, convMem st cid = true → (∀ m ∈ msgs, m.uuid ≠ none) →
    ∃ s, ingestAll st now cid msgs = .ok s := by
  induction msgs with
  | nil => intro st _ _; exact ⟨st, rfl⟩
  | cons m0 rest ih =>
      intro st hc hall
      unfold ingestAll
      cases hu : m0.uuid with
      | none => exact absurd hu (hall m0 (List.mem_cons_self m0 rest))
      | some u =>
          have hok : ingestMessage st now cid m0 =
              .ok (ingestBlocks (addConvMsgEdge
                (mergeMessageNode st (messageNodeOf now u m0)) (cid, u)) m0) := by
            unfold ingestMessage
            rw [if_pos hc, hu]
          rw [hok]
          have hc1 : convMem (ingestBlocks (addConvMsgEdge
              (mergeMessageNode st (messageNodeOf now u m0)) (cid, u)) m0) cid = true := by
            unfold convMem
            rw [(ingestMessage_rFrame hok).2.1]
            exact hc
          exact ih hc1 (fun m hm => hall m (List.mem_cons_of_mem m0 hm))

/-! ### The batch transaction body: idempotency and error determinism -/

theorem runBatchTx_cons (st : GraphState) (now : Nat) (pid : String) (pp : Option String)
    (cid : String) (first : ConversationMessage) (rest : List ConversationMessage) :
    runBatchTx st now pid pp cid (first :: rest) =
      ingestAll (ensureProjectAndConversation st now pid pp cid first) now cid (first :: rest) :=
  rfl

theorem runBatchTx_idem {st s : GraphState} {now : Nat} {pid : String} {pp : Option String}
    {cid : String} {msgs : List ConversationMessage} (now' : Nat)
    (h : runBatchTx st now pid pp cid msgs = .ok s) :
    runBatchTx s now' pid pp cid msgs = .ok s := by
  cases msgs with
  | nil =>
      unfold runBatchTx at h ⊢
      simp only [Except.ok.injEq] at h
      subst h
      rfl
  | cons first rest =>
      rw [runBatchTx_cons] at h
      rw [runBatchTx_cons]
      have hmem := ensurePC_mem st now pid pp cid first
      have hfills := ingestAll_fills hmem.2.1 h
      have hframe := ingestAll_rFrame h
      have hp : projMem s pid = true := by
        unfold projMem; rw [hframe.1]; exact hmem.1
      have hc : convMem s cid = true := by
        unfold convMem; rw [hframe.2.1]; exact hmem.2.1
      have he : (pid, cid) ∈ s.projConvEdges := by
        rw [hframe.2.2]; exact hmem.2.2
      rw [ensurePC_noop now' pp first hp hc he]
      exact ingestAll_noop hc hfills

theorem runBatchTx_err {st : GraphState} {now : Nat} {pid : String} {pp : Option String}
    {cid : String} {msgs : List ConversationMessage} {e : IngestError} (now' : Nat)
    (h : runBatchTx st now pid pp cid msgs = .error e) :
    runBatchTx st now' pid pp cid msgs = .error .nullMergeKey := by
  cases msgs with
  | nil => unfold runBatchTx at h; cases h
  | cons first rest =>
      rw [runBatchTx_cons] at h
      rw [runBatchTx_cons]
      have hmem := ensurePC_mem st now pid pp cid first
      have hmem' := ensurePC_mem st now' pid pp cid first
      have hex : ∃ m ∈ first :: rest, m.uuid = none := by
        by_contra hno
        push_neg at hno
        obtain ⟨s, hs⟩ := @ingestAll_ok_of_uuids now cid (first :: rest)
          (ensureProjectAndConversation st now pid pp cid first) hmem.2.1
          (fun m hm => by simpa using hno m hm)
        rw [hs] at h
        cases h
      exact ingestAll_err_of_missing_uuid hmem'.2.1 hex

/-! ### Endpoint-level helpers -/

theorem batchPost_err_aux {st : GraphState} {now : Nat} {pid : String} {pp : Option String}
    {cid : String} {msgs : List ConversationMessage} {e : IngestError}
    (hpid : pid ≠ "") (hcid : cid ≠ "")
    (h : runBatchTx st now pid pp cid msgs = .error e) :
    batchPost st now ⟨some pid, pp, some cid, some msgs⟩ =
      ⟨⟨500, .failure "Failed to ingest messages"⟩, st, 1⟩ := by
  have hne : msgs.isEmpty = false := by
    cases msgs with
    | nil => simp [runBatchTx] at h
    | cons a l => rfl
  simp [batchPost, truthy, hpid, hcid, hne, h]

theorem batchPost_ok_aux {st s : GraphState} {now : Nat} {pid : String} {pp : Option String}
    {cid : String} {msgs : List ConversationMessage}
    (hpid : pid ≠ "") (hcid : cid ≠ "") (hne : msgs ≠ [])
    (h : runBatchTx st now pid pp cid msgs = .ok s) :
    batchPost st now ⟨some pid, pp, some cid, some msgs⟩ =
      ⟨⟨200, .success (some msgs.length)⟩, s, 1⟩ := by
  have hne' : msgs.isEmpty = false := by
    cases msgs with
    | nil => exact absurd rfl hne
    | cons a l => rfl
  simp [batchPost, truthy, hpid, hcid, hne', h]

theorem batchPost_state_cases (st : GraphState) (now : Nat) (p : BatchPayload) :
    (batchPost st now p).state = st ∨
    ∃ pid pp cid msgs s, runBatchTx st now pid pp cid msgs = .ok s ∧
      (batchPost st now p).state = s := by
  cases hm : p.messages with
  | none => left; simp [batchPost, hm]
  | some msgs =>
      by_cases hv : (truthy p.projectId && truthy p.conversationId) = true
      · by_cases he : msgs.isEmpty = true
        · left; simp [batchPost, hm, hv, he]
        · cases hr : runBatchTx st now (p.projectId.getD "") p.projectPath
              (p.conversationId.getD "") msgs with
          | ok s => right; exact ⟨_, _, _, _, s, hr, by simp [batchPost, hm, hv, he, hr]⟩
          | error e => left; simp [batchPost, hm, hv, he, hr]
      · left; simp [batchPost, hm, hv]

theorem runBatchTx_ext {st s : GraphState} {now : Nat} {pid : String} {pp : Option String}
    {cid : String} {msgs : List ConversationMessage}
    (h : runBatchTx st now pid pp cid msgs = .ok s) : GExt st s := by
  cases msgs with
  | nil =>
      unfold runBatchTx at h
      simp only [Except.ok.injEq] at h
      subst h
      exact GExt.rfl _
  | cons first rest =>
      rw [runBatchTx_cons] at h
      exact GExt.trans (ensurePC_ext st now pid pp cid first) (ingestAll_ext h)

theorem batchPost_ext (st : GraphState) (now : Nat) (p : BatchPayload) :
    GExt st (batchPost st now p).state := by
  cases batchPost_state_cases st now p with
  | inl h => rw [h]; exact GExt.rfl st
  | inr h =>
      obtain ⟨pid, pp, cid, msgs, s, hr, hst⟩ := h
      rw [hst]
      exact runBatchTx_ext hr

/-! ### Claim theorems -/

/-- Claim C1: ingesting the same batch twice through `POST /ingest/batch`
yields a graph state identical to ingesting it once — for every starting
state, payload, and pair of request times, the state after the second call
equals the state after the first, so no node or edge is created and no
field value changes on re-ingestion. -/
theorem C1_batch_ingestion_idempotent (st : GraphState) (now now' : Nat) (p : BatchPayload) :
    (batchPost (batchPost st now p).state now' p).state = (batchPost st now p).state := by
  cases hm : p.messages with
  | none => simp [batchPost, hm]
  | some msgs =>
      by_cases hv : (truthy p.projectId && truthy p.conversationId) = true
      · by_cases he : msgs.isEmpty = true
        · simp [batchPost, hm, hv, he]
        · cases hr : runBatchTx st now (p.projectId.getD "") p.projectPath
              (p.conversationId.getD "") msgs with
          | ok s =>
              have h2 := runBatchTx_idem now' hr
              simp [batchPost, hm, hv, he, hr, h2]
          | error e =>
              have h2 := runBatchTx_err now' hr
              simp [batchPost, hm, hv, he, hr, h2]
      · simp [batchPost, hm, hv]

/-- Claim C2: batch ingestion is atomic — when processing the batch fails
inside the write transaction (the transaction body reports an error), the
endpoint answers 500 and the resulting graph state is exactly the starting
state: zero messages of the batch are visible afterwards. -/
theorem C2_batch_atomic_rollback (st : GraphState) (now : Nat) (pid : String)
    (pp : Option String) (cid : String) (msgs : List ConversationMessage) (e : IngestError)
    (hpid : pid ≠ "") (hcid : cid ≠ "")
    (h : runBatchTx st now pid pp cid msgs = .error e) :
    batchPost st now ⟨some pid, pp, some cid, some msgs⟩ =
      ⟨⟨500, .failure "Failed to ingest messages"⟩, st, 1⟩ :=
  batchPost_err_aux hpid hcid h

/-- Claim C5: a batch request with a missing (or JS-falsy) `projectId`,
`conversationId` or `messages` array is rejected as a whole with HTTP 400
and an error body, leaving the graph unchanged; and a storage failure
inside the transaction yields HTTP 500 with an error body, also leaving
the graph unchanged. -/
theorem C5_validation_and_error (st : GraphState) (now : Nat) (p : BatchPayload) :
    ((p.projectId = none ∨ p.projectId = some "" ∨ p.conversationId = none ∨
        p.conversationId = some "" ∨ p.messages = none) →
      batchPost st now p = ⟨⟨400, .failure "Missing required fields"⟩, st, 0⟩) ∧
    (∀ pid pp cid msgs e, p = ⟨some pid, pp, some cid, some msgs⟩ → pid ≠ "" → cid ≠ "" →
      runBatchTx st now pid pp cid msgs = .error e →
      batchPost st now p = ⟨⟨500, .failure "Failed to ingest messages"⟩, st, 1⟩) := by
  constructor
  · obtain ⟨pi, pp0, ci, ms⟩ := p
    intro hd
    cases ms with
    | none => simp [batchPost]
    | some msgs =>
        rcases hd with h | h | h | h | h
        · simp only at h; subst h; simp [batchPost, truthy]
        · simp only at h; subst h; simp [batchPost, truthy]
        · simp only at h; subst h; simp [batchPost, truthy, Bool.and_false]
        · simp only at h; subst h; simp [batchPost, truthy, Bool.and_false]
        · cases h
  · intro pid pp cid msgs e hp hpid hcid h
    subst hp
    exact batchPost_err_aux hpid hcid h

/-- Claim C6: an empty batch with valid `projectId` and `conversationId` is
accepted: the endpoint answers 200 with `ingested = 0`, opens no write
transaction, and leaves the graph unchanged. -/
theorem C6_empty_batch (st : GraphState) (now : Nat) (pid : String) (pp : Option String)
    (cid : String) (hpid : pid ≠ "") (hcid : cid ≠ "") :
    batchPost st now ⟨some pid, pp, some cid, some []⟩ =
      ⟨⟨200, .success (some 0)⟩, st, 0⟩ := by
  simp [batchPost, truthy, hpid, hcid]

/-- Claim C7: `POST /ingest` with a message has the same graph-state
semantics as `POST /ingest/batch` with the one-element message list, for
every starting state and every payload (valid or not): the resulting graph
states are equal. -/
theorem C7_single_is_batch_of_one (st : GraphState) (now : Nat)
    (pid pp cid : Option String) (m : ConversationMessage) :
    (singlePost st now ⟨pid, pp, cid, some m⟩).state =
      (batchPost st now ⟨pid, pp, cid, some [m]⟩).state := by
  have hrb : runBatchTx st now (pid.getD "") pp (cid.getD "") [m] =
      runSingleTx st now (pid.getD "") pp (cid.getD "") m := by
    rw [runBatchTx_cons]
    unfold runSingleTx
    cases hmm : ingestMessage (ensureProjectAndConversation st now (pid.getD "") pp
        (cid.getD "") m) now (cid.getD "") m with
    | ok s => simp [ingestAll, hmm]
    | error e => simp [ingestAll, hmm]
  by_cases hv : (truthy pid && truthy cid) = true
  · cases hr : runSingleTx st now (pid.getD "") pp (cid.getD "") m with
    | ok s => simp [singlePost, batchPost, hv, hrb, hr]
    | error e => simp [singlePost, batchPost, hv, hrb, hr]
  · simp [singlePost, batchPost, hv]

/-- Claim C10: whenever the batch transaction succeeds, the `ingested`
count in the 200 response equals the length of the request's `messages`
array — for an arbitrary starting state, so in particular also when every
uuid already exists and all upserts are no-ops; the endpoint never reports
a count of newly created nodes. -/
theorem C10_ingested_is_batch_length (st s : GraphState) (now : Nat) (pid : String)
    (pp : Option String) (cid : String) (msgs : List ConversationMessage)
    (hpid : pid ≠ "") (hcid : cid ≠ "") (hne : msgs ≠ [])
    (h : runBatchTx st now pid pp cid msgs = .ok s) :
    (batchPost st now ⟨some pid, pp, some cid, some msgs⟩).resp =
      ⟨200, .success (some msgs.length)⟩ := by
  rw [batchPost_ok_aux hpid hcid hne h]

/-- Claim C8: repeat ingestion calls never overwrite creation-time fields.
If a project node with id `pid` is already stored (as the first `find?`
match, which the uniqueness constraint makes the only one), any later
batch call — in particular one with the same `projectId` but a different
`projectPath` — leaves that node, including `path`, `name` and
`displayName`, unchanged; likewise an existing conversation node keeps its
`uuid` and `timestamp` across a later call whose batch starts with a
different first message. -/
theorem C8_no_overwrite_on_repeat (st : GraphState) (now : Nat) (p : BatchPayload)
    (pid : String) (pr : ProjectNode) (cid : String) (c : ConversationNode)
    (hp : st.projects.find? (fun q => q.id == pid) = some pr)
    (hc : st.conversations.find? (fun d => d.sessionId == cid) = some c) :
    (batchPost st now p).state.projects.find? (fun q => q.id == pid) = some pr ∧
    (batchPost st now p).state.conversations.find? (fun d => d.sessionId == cid) = some c := by
  have hext := batchPost_ext st now p
  exact ⟨find_of_listExt hext.projects hp, find_of_listExt hext.conversations hc⟩

/-! ### Toggling the starred flag -/

theorem toggle_map_find {l : List ConversationNode} {sid : String} {c : ConversationNode}
    (h : l.find? (fun d => d.sessionId == sid) = some c) :
    (l.map (fun d => if d.sessionId == sid then flipStar d else d)).find?
      (fun d => d.sessionId == sid) = some (flipStar c) := by
  induction l with
  | nil => simp at h
  | cons x xs ih =>
      rw [List.map_cons]
      by_cases hx : (x.sessionId == sid) = true
      · rw [@List.find?_cons_of_pos _ (fun d => d.sessionId == sid) x xs hx] at h
        simp only [Option.some.injEq] at h
        subst h
        rw [if_pos hx]
        exact @List.find?_cons_of_pos _ (fun d => d.sessionId == sid) (flipStar x) _ hx
      · rw [@List.find?_cons_of_neg _ (fun d => d.sessionId == sid) x xs hx] at h
        rw [if_neg hx]
        rw [@List.find?_cons_of_neg _ (fun d => d.sessionId == sid) x _ hx]
        exact ih h

theorem toggle_map_mem {l : List ConversationNode} {sid : String} {d : ConversationNode}
    (hd : d ∈ l) (hne : d.sessionId ≠ sid) :
    d ∈ l.map (fun c => if c.sessionId == sid then flipStar c else c) := by
  refine List.mem_map.mpr ⟨d, hd, ?he⟩
  rw [if_neg (by simpa using hne)]

/-- Claim C9: `toggleConversationStar` is a plain boolean flip. For an
existing conversation it returns the negation of the previous `starred`
value (absent counts as `false`), rewrites only the `starred` property of
that conversation (every other field of the node, every other conversation,
and every other part of the graph is untouched), and a second call returns
and stores the original value again. -/
theorem C9_toggle_star_flip (st : GraphState) (sid : String) (c : ConversationNode)
    (h : st.conversations.find? (fun d => d.sessionId == sid) = some c) :
    ∃ st',
      toggleConversationStar st sid = .ok (!(c.starred.getD false), st') ∧
      st'.conversations.find? (fun d => d.sessionId == sid) = some (flipStar c) ∧
      flipStar c = { c with starred := some (!(c.starred.getD false)) } ∧
      st'.projects = st.projects ∧ st'.messages = st.messages ∧ st'.blocks = st.blocks ∧
      st'.projConvEdges = st.projConvEdges ∧ st'.convMsgEdges = st.convMsgEdges ∧
      st'.msgBlockEdges = st.msgBlockEdges ∧
      st'.conversations.length = st.conversations.length ∧
      (∀ d ∈ st.conversations, d.sessionId ≠ sid → d ∈ st'.conversations) ∧
      ∃ st'',
        toggleConversationStar st' sid = .ok (c.starred.getD false, st'') ∧
        st''.conversations.find? (fun d => d.sessionId == sid) =
          some { c with starred := some (c.starred.getD false) } := by
  have hf1 := toggle_map_find h
  have hfs2 : flipStar (flipStar c) = { c with starred := some (c.starred.getD false) } := by
    simp [flipStar]
  refine ⟨{ st with conversations :=
      st.conversations.map (fun d => if d.sessionId == sid then flipStar d else d) },
    ?htog, hf1, rfl, rfl, rfl, rfl, rfl, rfl, rfl, by simp, ?hmem, ?hsecond⟩
  case htog =>
    simp only [toggleConversationStar]
    rw [hf1]
    rfl
  case hmem => exact fun d hd hne => toggle_map_mem hd hne
  case hsecond =>
    have hf2 := toggle_map_find hf1
    refine ⟨{ st with conversations := List.map (fun d => if d.sessionId == sid then flipStar d else d) (List.map (fun d => if d.sessionId == sid then flipStar d else d) st.conversations) }, ?htog2, ?hfind2⟩
    case htog2 =>
      simp only [toggleConversationStar]
      rw [hf2]
      have hv : (flipStar (flipStar c)).starred.getD false = c.starred.getD false := by
        rw [hfs2]
        rfl
      simp only [hv]
    case hfind2 =>
      rw [← hfs2]
      exact hf2

/-! ### Message-node creation tracked through a batch -/

theorem any_false_iff_find_none {α : Type} {p : α → Bool} {l : List α} :
    l.any p = false ↔ l.find? p = none := by
  constructor
  · intro h
    rw [List.find?_eq_none]
    intro x hx hpx
    have h2 := List.any_eq_true.mpr ⟨x, hx, hpx⟩
    rw [h] at h2
    cases h2
  · intro h
    cases hb : l.any p with
    | false => rfl
    | true =>
        obtain ⟨x, hx, hpx⟩ := List.any_eq_true.mp hb
        exact absurd hpx (List.find?_eq_none.mp h x hx)

theorem find_none_append {α : Type} {p : α → Bool} {l : List α} {x : α}
    (hl : l.find? p = none) (hx : p x = false) : (l ++ [x]).find? p = none := by
  rw [List.find?_append, hl]
  simp [List.find?, hx]

theorem messageNodeOf_uuid (now : Nat) (u : String) (m : ConversationMessage) :
    (messageNodeOf now u m).uuid = u := rfl

theorem ingestMessage_messages_cases {st s : GraphState} {now : Nat} {cid : String}
    {m : ConversationMessage} (h : ingestMessage st now cid m = .ok s) :
    s.messages = st.messages ∨
    ∃ u, m.uuid = some u ∧ msgMem st u = false ∧
      s.messages = st.messages ++ [messageNodeOf now u m] := by
  unfold ingestMessage at h
  split at h
  · cases hu : m.uuid with
    | none => rw [hu] at h; simp at h
    | some u =>
        rw [hu] at h
        simp only [Except.ok.injEq] at h
        subst h
        have hae := addConvMsgEdge_frame (mergeMessageNode st (messageNodeOf now u m)) (cid, u)
        have hib := ingestBlocks_wFrame
          (addConvMsgEdge (mergeMessageNode st (messageNodeOf now u m)) (cid, u)) m
        by_cases hmem : msgMem st u = true
        · left
          rw [hib.2.2.1, hae.2.2.1]
          unfold mergeMessageNode
          simp only [messageNodeOf_uuid]
          rw [if_pos hmem]
        · right
          refine ⟨u, rfl, by simpa using hmem, ?hml⟩
          rw [hib.2.2.1, hae.2.2.1]
          unfold mergeMessageNode
          simp only [messageNodeOf_uuid]
          rw [if_neg hmem]
  · simp only [Except.ok.injEq] at h
    subst h
    left
    exact (ingestBlocks_wFrame st m).2.2.1

theorem ingestMessage_creates_fresh {st s : GraphState} {now : Nat} {cid : String}
    {m : ConversationMessage} {u : String} (hc : convMem st cid = true) (hu : m.uuid = some u)
    (hfresh : msgMem st u = false) (h : ingestMessage st now cid m = .ok s) :
    s.messages.find? (fun n => n.uuid == u) = some (messageNodeOf now u m) := by
  unfold ingestMessage at h
  rw [if_pos hc, hu] at h
  simp only [Except.ok.injEq] at h
  subst h
  have hmm : (mergeMessageNode st (messageNodeOf now u m)).messages =
      st.messages ++ [messageNodeOf now u m] := by
    unfold mergeMessageNode
    rw [if_neg (by simp [messageNodeOf_uuid, hfresh])]
  have hae := addConvMsgEdge_frame (mergeMessageNode st (messageNodeOf now u m)) (cid, u)
  have hib := ingestBlocks_wFrame
    (addConvMsgEdge (mergeMessageNode st (messageNodeOf now u m)) (cid, u)) m
  rw [hib.2.2.1, hae.2.2.1, hmm]
  rw [List.find?_append, any_false_iff_find_none.mp hfresh]
  simp [List.find?, messageNodeOf]

theorem ingestAll_creates {now : Nat} {cid u : String} {m : ConversationMessage}
    {post : List ConversationMessage} {pre : List ConversationMessage} :
    ∀ {st s : GraphState}, convMem st cid = true → m.uuid = some u →
    st.messages.find? (fun n => n.uuid == u) = none →
    (∀ m2 ∈ pre, m2.uuid ≠ some u) →
    ingestAll st now cid (pre ++ m :: post) = .ok s →
    s.messages.find? (fun n => n.uuid == u) = some (messageNodeOf now u m) := by
  induction pre with
  | nil =>
      intro st s hc hu hnone _ h
      rw [List.nil_append] at h
      unfold ingestAll at h
      cases hm : ingestMessage st now cid m with
      | error e => rw [hm] at h; simp at h
      | ok s1 =>
          rw [hm] at h
          have hfr : msgMem st u = false := any_false_iff_find_none.mpr hnone
          have hcr := ingestMessage_creates_fresh hc hu hfr hm
          exact find_of_listExt (ingestAll_ext h).messages hcr
  | cons p0 pr ih =>
      intro st s hc hu hnone hpre h
      rw [List.cons_append] at h
      unfold ingestAll at h
      cases hm : ingestMessage st now cid p0 with
      | error e => rw [hm] at h; simp at h
      | ok s1 =>
          rw [hm] at h
          have hc1 : convMem s1 cid = true := by
            unfold convMem
            rw [(ingestMessage_rFrame hm).2.1]
            exact hc
          have hnone1 : s1.messages.find? (fun n => n.uuid == u) = none := by
            cases ingestMessage_messages_cases hm with
            | inl he => rw [he]; exact hnone
            | inr hex =>
                obtain ⟨u2, hu2, _, he⟩ := hex
                rw [he]
                refine find_none_append hnone ?hp
                have hne : u2 ≠ u := by
                  intro heq
                  subst heq
                  exact hpre p0 (List.mem_cons_self p0 pr) hu2
                exact beq_eq_false_iff_ne.mpr hne
          exact ih hc1 hu hnone1 (fun m2 hm2 => hpre m2 (List.mem_cons_of_mem p0 hm2)) h

theorem runBatchTx_ok_facts {st s : GraphState} {now : Nat} {pid : String} {pp : Option String}
    {cid : String} {msgs : List ConversationMessage}
    (h : runBatchTx st now pid pp cid msgs = .ok s) (hne : msgs ≠ []) :
    convMem s cid = true ∧ ∀ m ∈ msgs, msgDone s cid m := by
  cases msgs with
  | nil => exact absurd rfl hne
  | cons f r =>
      rw [runBatchTx_cons] at h
      have hmem := ensurePC_mem st now pid pp cid f
      have hfr := ingestAll_rFrame h
      refine ⟨?hc, ingestAll_fills hmem.2.1 h⟩
      unfold convMem
      rw [hfr.2.1]
      exact hmem.2.1

theorem runBatchTx_creates {st s : GraphState} {now : Nat} {pid : String} {pp : Option String}
    {cid u : String} {pre post : List ConversationMessage} {m : ConversationMessage}
    (hu : m.uuid = some u) (hfresh : msgMem st u = false)
    (hpre : ∀ m2 ∈ pre, m2.uuid ≠ some u)
    (h : runBatchTx st now pid pp cid (pre ++ m :: post) = .ok s) :
    s.messages.find? (fun n => n.uuid == u) = some (messageNodeOf now u m) := by
  obtain ⟨f, r, hfr⟩ : ∃ f r, pre ++ m :: post = f :: r := by
    cases pre with
    | nil => exact ⟨m, post, rfl⟩
    | cons a l => exact ⟨a, l ++ m :: post, rfl⟩
  rw [hfr, runBatchTx_cons, ← hfr] at h
  have hmem := ensurePC_mem st now pid pp cid f
  have hfrm := ensurePC_frame st now pid pp cid f
  have hnone : (ensureProjectAndConversation st now pid pp cid f).messages.find?
      (fun n => n.uuid == u) = none := by
    rw [hfrm.1]
    exact any_false_iff_find_none.mp hfresh
  exact ingestAll_creates hmem.2.1 hu hnone hpre h

/-! ### Fetch membership: a stored, attached message appears in the fetch -/

theorem getConversation_mem {s : GraphState} {cid : String} {n : MessageNode}
    (hc : convMem s cid = true) (hmem : n ∈ s.messages)
    (hedge : (cid, n.uuid) ∈ s.convMsgEdges) :
    ∃ conv, getConversation s cid = some conv ∧ toRet n ∈ conv.messages := by
  obtain ⟨c0, hc0⟩ : ∃ c0, s.conversations.find? (fun c => c.sessionId == cid) = some c0 := by
    cases hf : s.conversations.find? (fun c => c.sessionId == cid) with
    | some c0 => exact ⟨c0, rfl⟩
    | none =>
        obtain ⟨x, hx, hpx⟩ := List.any_eq_true.mp hc
        exact absurd hpx (List.find?_eq_none.mp hf x hx)
  refine ⟨⟨c0.sessionId, c0.uuid, c0.timestamp, getConversationMessages s cid⟩, ?hg, ?hm⟩
  case hg =>
    unfold getConversation
    rw [hc0]
  case hm =>
    unfold getConversationMessages
    refine List.mem_map_of_mem toRet ?hsort
    refine (List.perm_insertionSort msgLE (conversationMessageNodes s cid)).mem_iff.mpr ?hfil
    exact List.mem_filter.mpr ⟨hmem, decide_eq_true hedge⟩

/-- Claim C3 (amended): `getConversation` returns a stored conversation's
messages sorted by timestamp ascending — a permutation of the
conversation's stored message rows — but with no uuid tie-break: messages
with equal timestamps keep the order in which the store returns them
(store order in this model), not uuid lexical order. -/
theorem C3_sorted_by_timestamp_only (st : GraphState) (cid : String) (conv : RConversation)
    (h : getConversation st cid = some conv) :
    List.Sorted (fun a b : RetMessage => tsLE a.timestamp b.timestamp) conv.messages ∧
    conv.messages.Perm ((conversationMessageNodes st cid).map toRet) := by
  unfold getConversation at h
  cases hf : st.conversations.find? (fun c => c.sessionId == cid) with
  | none => rw [hf] at h; cases h
  | some c0 =>
      rw [hf] at h
      simp only [Option.some.injEq] at h
      subst h
      constructor
      · show List.Sorted _ (getConversationMessages st cid)
        unfold getConversationMessages
        refine List.pairwise_map.mpr ?hs
        exact List.sorted_insertionSort msgLE (conversationMessageNodes st cid)
      · show List.Perm (getConversationMessages st cid) _
        unfold getConversationMessages
        exact List.Perm.map toRet (List.perm_insertionSort msgLE _)

/-- Claim C3 (counterexample): the claimed deterministic uuid tie-break
does not exist. Ingesting two messages with the same timestamp whose store
order is "b" before "a" and fetching the conversation returns them still
as "b" before "a", although "a" precedes "b" in lexical uuid order; the
fetched message list violates the timestamp-then-uuid ordering predicate
of the claim. -/
theorem C3_counterexample_no_uuid_tiebreak :
    getConversation tieSt "c1" = some tieConv ∧
    tieConv.messages.map (fun r => (r.uuid, r.timestamp)) =
      [("b", some "T"), ("a", some "T")] ∧
    (¬ tieConv.messages.Pairwise (fun a b =>
        a.timestamp = b.timestamp → a.uuid.data ≤ b.uuid.data)) ∧
    ("a" : String).data < ("b" : String).data := by
  refine ⟨by decide, by decide, by decide, by decide⟩

/-- Claim C3 (witness for the amended theorem): the amended ordering facts
hold at the concrete tied-timestamp conversation. -/
theorem C3_sorted_witness :
    List.Sorted (fun a b : RetMessage => tsLE a.timestamp b.timestamp) tieConv.messages ∧
    tieConv.messages.Perm ((conversationMessageNodes tieSt "c1").map toRet) := by
  have hc : getConversation tieSt "c1" = some tieConv := by decide
  exact ⟨(C3_sorted_by_timestamp_only tieSt "c1" tieConv hc).1,
    (C3_sorted_by_timestamp_only tieSt "c1" tieConv hc).2⟩

/-- Claim C4: content block order is preserved across ingestion and fetch.
For an assistant message with a fresh uuid and a content block array,
after a successful batch that first contains it, `getConversation` returns
a row for that uuid whose payload is the ingested payload itself — its
content blocks in the original ordinal order. -/
theorem C4_content_block_order_preserved (st : GraphState) (now : Nat) (pid : String)
    (pp : Option String) (cid : String) (pre post : List ConversationMessage)
    (m : ConversationMessage) (u : String) (bs : List Block)
    (hpid : pid ≠ "") (hcid : cid ≠ "")
    (hu : m.uuid = some u) (hasst : m.mtype = "assistant")
    (hcont : m.message.content = some (MsgContent.arr bs))
    (hfresh : msgMem st u = false)
    (hpre : ∀ m2 ∈ pre, m2.uuid ≠ some u)
    (hok : (batchPost st now ⟨some pid, pp, some cid,
      some (pre ++ m :: post)⟩).resp.status = 200) :
    ∃ conv r,
      getConversation (batchPost st now ⟨some pid, pp, some cid,
        some (pre ++ m :: post)⟩).state cid = some conv ∧
      r ∈ conv.messages ∧ r.uuid = u ∧ r.message = m.message ∧
      r.message.content = some (MsgContent.arr bs) := by
  have hne : pre ++ m :: post ≠ [] := by simp
  cases hr : runBatchTx st now pid pp cid (pre ++ m :: post) with
  | error e =>
      rw [batchPost_err_aux hpid hcid hr] at hok
      cases hok
  | ok s =>
      have hbp := batchPost_ok_aux hpid hcid hne hr
      rw [hbp]
      have hfacts := runBatchTx_ok_facts hr hne
      have hfind := runBatchTx_creates hu hfresh hpre hr
      have hmem : messageNodeOf now u m ∈ s.messages := List.mem_of_find?_eq_some hfind
      have hdone := hfacts.2 m (by simp)
      obtain ⟨u2, hu2, _, hedge, _⟩ := hdone
      rw [hu] at hu2
      simp only [Option.some.injEq] at hu2
      subst hu2
      have hedge' : (cid, (messageNodeOf now u m).uuid) ∈ s.convMsgEdges := by
        rw [messageNodeOf_uuid]
        exact hedge
      obtain ⟨conv, hg, hmm⟩ := getConversation_mem hfacts.1 hmem hedge'
      refine ⟨conv, toRet (messageNodeOf now u m), hg, hmm, rfl, rfl, ?hc⟩
      show m.message.content = some (MsgContent.arr bs)
      exact hcont

/-! ### Witnesses: the claim theorems instantiated at concrete inputs -/

/-- Claim C2 witness: a concrete two-message batch whose second record has
no uuid is rolled back whole — the empty graph stays empty and the
endpoint answers 500. -/
theorem C2_rollback_witness :
    batchPost GraphState.empty 0 ⟨some "p1", some "/w", some "c1", some [exUserMsg, exBadMsg]⟩ =
      ⟨⟨500, .failure "Failed to ingest messages"⟩, GraphState.empty, 1⟩ :=
  C2_batch_atomic_rollback GraphState.empty 0 "p1" (some "/w") "c1" [exUserMsg, exBadMsg]
    .nullMergeKey (by decide) (by decide) (by rfl)

/-- Claim C4 witness: the assistant example message, ingested into the
empty graph, is fetched back with its two content blocks in ingestion
order. -/
theorem C4_order_witness :
    ∃ conv r,
      getConversation (batchPost GraphState.empty 7 ⟨some "p1", some "/w", some "c1",
        some ([] ++ exAsstMsg :: [])⟩).state "c1" = some conv ∧
      r ∈ conv.messages ∧ r.uuid = "m2" ∧ r.message = exAsstMsg.message ∧
      r.message.content =
        some (MsgContent.arr [⟨some "text", some "hi"⟩, ⟨some "tool_use", none⟩]) :=
  C4_content_block_order_preserved GraphState.empty 7 "p1" (some "/w") "c1" [] []
    exAsstMsg "m2" [⟨some "text", some "hi"⟩, ⟨some "tool_use", none⟩]
    (by decide) (by decide) rfl rfl rfl rfl (by simp) rfl

/-- Claim C5 witness: a payload with no projectId gets 400 and leaves the
empty graph empty; a payload whose second record has no uuid gets 500 and
leaves it empty too. -/
theorem C5_validation_witness :
    (batchPost GraphState.empty 0 ⟨none, none, some "c1", some [exUserMsg]⟩ =
      ⟨⟨400, .failure "Missing required fields"⟩, GraphState.empty, 0⟩) ∧
    (batchPost GraphState.empty 0 ⟨some "p1", some "/w", some "c1", some [exUserMsg, exBadMsg]⟩ =
      ⟨⟨500, .failure "Failed to ingest messages"⟩, GraphState.empty, 1⟩) :=
  ⟨(C5_validation_and_error GraphState.empty 0 ⟨none, none, some "c1", some [exUserMsg]⟩).1
      (Or.inl rfl),
   (C5_validation_and_error GraphState.empty 0 ⟨some "p1", some "/w", some "c1",
      some [exUserMsg, exBadMsg]⟩).2 "p1" (some "/w") "c1" [exUserMsg, exBadMsg]
      .nullMergeKey rfl (by decide) (by decide) (by rfl)⟩

/-- Claim C6 witness: the concrete empty batch on the empty graph. -/
theorem C6_empty_batch_witness :
    batchPost GraphState.empty 0 ⟨some "p1", some "/w", some "c1", some []⟩ =
      ⟨⟨200, .success (some 0)⟩, GraphState.empty, 0⟩ :=
  C6_empty_batch GraphState.empty 0 "p1" (some "/w") "c1" (by decide) (by decide)

/-- Claim C8 witness: after a second call with a different `projectPath`
and a different first message, the stored project and conversation nodes
keep their creation-time fields. -/
theorem C8_no_overwrite_witness :
    ((batchPost exOnce 9 ⟨some "p1", some "/other", some "c1",
        some [exAsstMsg]⟩).state.projects.find? (fun q => q.id == "p1") =
      some ⟨"p1", some "/w", "p1", "p1", 7⟩) ∧
    ((batchPost exOnce 9 ⟨some "p1", some "/other", some "c1",
        some [exAsstMsg]⟩).state.conversations.find? (fun d => d.sessionId == "c1") =
      some ⟨"c1", some "m1", some "t1", 7, none⟩) :=
  C8_no_overwrite_on_repeat exOnce 9 ⟨some "p1", some "/other", some "c1", some [exAsstMsg]⟩
    "p1" ⟨"p1", some "/w", "p1", "p1", 7⟩ "c1" ⟨"c1", some "m1", some "t1", 7, none⟩
    (by decide) (by decide)

/-- Claim C9 witness: toggling the example conversation's absent starred
flag yields `true`, rewrites only that flag, and a second toggle stores
`false` again. -/
theorem C9_toggle_witness :
    ∃ st',
      toggleConversationStar exOnce "c1" = .ok (true, st') ∧
      st'.conversations.find? (fun d => d.sessionId == "c1") =
        some (flipStar ⟨"c1", some "m1", some "t1", 7, none⟩) ∧
      flipStar ⟨"c1", some "m1", some "t1", 7, none⟩ =
        ⟨"c1", some "m1", some "t1", 7, some true⟩ ∧
      st'.projects = exOnce.projects ∧ st'.messages = exOnce.messages ∧
      st'.blocks = exOnce.blocks ∧ st'.projConvEdges = exOnce.projConvEdges ∧
      st'.convMsgEdges = exOnce.convMsgEdges ∧ st'.msgBlockEdges = exOnce.msgBlockEdges ∧
      st'.conversations.length = exOnce.conversations.length ∧
      (∀ d ∈ exOnce.conversations, d.sessionId ≠ "c1" → d ∈ st'.conversations) ∧
      ∃ st'', toggleConversationStar st' "c1" = .ok (false, st'') ∧
        st''.conversations.find? (fun d => d.sessionId == "c1") =
          some ⟨"c1", some "m1", some "t1", 7, some false⟩ :=
  C9_toggle_star_flip exOnce "c1" ⟨"c1", some "m1", some "t1", 7, none⟩ (by decide)

/-- Claim C10 witness: re-sending the already ingested two-message batch
still reports `ingested = 2`, although every upsert is a no-op. -/
theorem C10_count_witness :
    (batchPost exOnce 9 ⟨some "p1", some "/w", some "c1",
        some [exUserMsg, exAsstMsg]⟩).resp = ⟨200, .success (some 2)⟩ :=
  C10_ingested_is_batch_length exOnce exOnce 9 "p1" (some "/w") "c1" [exUserMsg, exAsstMsg]
    (by decide) (by decide) (by decide) (by rfl)
